import Mathlib

/-!
A shallow embedding of the MOD-file playback engine in
`src/neoplay/src/player.rs` (the `Player` struct and its `next_sample`
method), together with theorems about its scheduler, voice and effect
behaviour.

Machine integers are modelled as `Nat`/`Int`; wrapping arithmetic is made
explicit with `% 65536` (u16) and a two's-complement fold for i8.  Fallible
operations — the `.expect("Get pattern")` call, the unchecked raw-pointer
waveform read (out of bounds is undefined behaviour), and the `u32`
subtractions that can underflow — are modelled with `Option`, `none`
standing for a panic or undefined behaviour.

The `neotracker` crate (module data, `Fractional`, `Effect`,
`shift_period`) is an external dependency of the repository; those
definitions are modelled from the specification's description of them, as
marked on each.
-/

/-- Modelled from the spec: the `neotracker::Fractional` fixed-point
accumulator, "a fixed-point value representing a sub-byte read position or a
per-sample step size".  Represented as a natural number of 1/65536ths of a
byte. -/
structure Fractional where
  raw : Nat
deriving DecidableEq

/-- Modelled from the spec: construction from a byte offset. -/
def Fractional.new (n : Nat) : Fractional := ⟨n * 65536⟩

/-- Modelled from the spec: `Fractional::default()` is the zero position. -/
def Fractional.dflt : Fractional := ⟨0⟩

/-- Modelled from the spec: truncation to an integer byte index. -/
def Fractional.as_index (f : Fractional) : Nat := f.raw / 65536

instance : Add Fractional := ⟨fun a b => ⟨a.raw + b.raw⟩⟩

/-- Modelled from the spec: the per-output-sample clock ratio, "derived from
the ratio of the tracker's fixed internal clock to the output sample rate"
(PAL clock / 2 ≈ 3546895 Hz). -/
def Fractional.new_from_sample_rate (sample_rate : Nat) : Fractional :=
  ⟨3546895 * 65536 / sample_rate⟩

/-- Modelled from the spec: construction of a step size from a note period
value; the byte step per output sample is the clock ratio divided by the
period. -/
def Fractional.apply_period (f : Fractional) (period : Nat) : Fractional :=
  ⟨f.raw / period⟩

/-- Modelled from the spec: the `neotracker::Effect` note-effect language as
used by `player.rs`.  The volume-slide payload is the crate's signed `i8`
(positive for the increase nibble x, negative for the decrease nibble y);
`other` stands for every effect `player.rs` accepts and ignores. -/
inductive Effect where
  | arpeggio (n : Nat)
  | slideUp (n : Nat)
  | slideDown (n : Nat)
  | volumeSlide (n : Int)
  | setVolume (v : Nat)
  | setSpeed (v : Nat)
  | sampleOffset (n : Nat)
  | patternBreak (row : Nat)
  | other
deriving DecidableEq

/-- Modelled from the spec: the classic ProTracker period lookup table,
"pitch-shift table is a fixed lookup by semitone distance". -/
def periodTable : List Nat :=
  [856, 808, 762, 720, 678, 640, 604, 570, 538, 508, 480, 453,
   428, 404, 381, 360, 339, 320, 302, 285, 269, 254, 240, 226,
   214, 202, 190, 180, 170, 160, 151, 143, 135, 127, 120, 113]

/-- Modelled from the spec: `neotracker::shift_period` moves a period by a
signed number of half-steps through the period table and "must reject
out-of-range shifts without effect" (returns `none`). -/
def shift_period (period : Nat) (halfSteps : Int) : Option Nat :=
  match periodTable.indexOf? period with
  | none => none
  | some i =>
      let j : Int := (i : Int) + halfSteps
      if 0 ≤ j then periodTable.get? j.toNat else none

/-- Modelled from the spec: a sample descriptor, "raw bytes, default volume,
loop flag, loop start/length in bytes".  Raw bytes are unsigned byte values
(0–255), reinterpreted as signed 8-bit at read time. -/
structure Sample where
  raw_sample_bytes : List Nat
  volume : Nat
  loops : Bool
  repeat_point_bytes : Nat
  repeat_length_bytes : Nat
deriving DecidableEq

/-- Modelled from the spec: the stored sample length in bytes (the length of
the raw waveform). -/
def Sample.sample_length_bytes (s : Sample) : Nat := s.raw_sample_bytes.length

/-- Modelled from the spec: a note is "a (sample, pitch, effect) triple,
possibly empty"; `player.rs` only uses the four accessors `is_empty`,
`sample_no`, `period` (a u16) and `effect`, so they are modelled as
independent fields. -/
structure Note where
  is_empty : Bool
  sample_no : Nat
  period : Nat
  effect : Option Effect
deriving DecidableEq

/-- Modelled from the spec: one line holds one note per channel; the four
channels are the fixed topology of the format. -/
structure Line where
  ch0 : Note
  ch1 : Note
  ch2 : Note
  ch3 : Note
deriving DecidableEq

/-- Modelled from the spec: a pattern is a fixed block of lines, looked up
by index with failure past the end. -/
structure Pattern where
  lines : List Line
deriving DecidableEq

/-- Modelled from the spec: `pattern→line lookup by index (fails/returns
empty past pattern end)`. -/
def Pattern.line (p : Pattern) (i : Nat) : Option Line := p.lines.get? i

/-- Modelled from the spec: the already-parsed module: song position list,
patterns, and sample-number→sample lookup (which may fail). -/
structure ModFile where
  positions : List Nat
  patterns : List Pattern
  samples : List (Option Sample)
deriving DecidableEq

/-- Modelled from the spec: `position→pattern lookup (fails/returns empty
past song end)`. -/
def ModFile.song_position (m : ModFile) (i : Nat) : Option Nat := m.positions.get? i

/-- Modelled from the spec: pattern lookup by pattern index. -/
def ModFile.pattern (m : ModFile) (i : Nat) : Option Pattern := m.patterns.get? i

/-- Modelled from the spec: sample lookup by a note's sample number, failing
for a nonexistent sample. -/
def ModFile.sample (m : ModFile) (n : Nat) : Option Sample :=
  match m.samples.get? n with
  | some s => s
  | none => none

/-- The per-voice state of `player.rs`'s `struct Channel`.  The raw waveform
pointer `sample_data: Option<*const u8>` is modelled as the pointed-to byte
list. -/
structure Channel where
  sample_data : Option (List Nat)
  sample_loops : Bool
  sample_length : Nat
  repeat_length : Nat
  repeat_point : Nat
  volume : Nat
  note_period : Nat
  sample_position : Fractional
  note_step : Fractional
  effect : Option Effect
deriving DecidableEq

/-- `Channel::default()`: all-zero, no sample, no effect. -/
def Channel.init : Channel :=
  { sample_data := none, sample_loops := false, sample_length := 0,
    repeat_length := 0, repeat_point := 0, volume := 0, note_period := 0,
    sample_position := Fractional.dflt, note_step := Fractional.dflt,
    effect := none }

/-- The scheduler state of `player.rs`'s `struct Player`.  The four-element
channel array is flattened into four fields; `position` and `line` are `u8`
in the source but modelled as `Nat` (the source never exceeds the pattern
and position-table bounds that fit in a `u8`). -/
structure Player where
  modfile : ModFile
  samples_left : Nat
  ticks_left : Nat
  ticks_per_line : Nat
  third_ticks_per_line : Nat
  samples_per_tick : Nat
  clock_ticks_per_device_sample : Fractional
  position : Nat
  line : Nat
  finished : Bool
  pattern_break : Option Nat
  ch0 : Channel
  ch1 : Channel
  ch2 : Channel
  ch3 : Channel
deriving DecidableEq

/-- `Player::new`: the module parse itself is the external collaborator, so
the constructor takes the parsed module and the output sample rate.  Initial
tempo is 6 ticks per line with `samples_per_tick = sample_rate / 50`. -/
def Player.new (m : ModFile) (sample_rate : Nat) : Player :=
  { modfile := m, samples_left := 0, ticks_left := 0, ticks_per_line := 6,
    third_ticks_per_line := 2, samples_per_tick := sample_rate / 50,
    clock_ticks_per_device_sample := Fractional.new_from_sample_rate sample_rate,
    position := 0, line := 0, finished := false, pattern_break := none,
    ch0 := Channel.init, ch1 := Channel.init, ch2 := Channel.init,
    ch3 := Channel.init }

/-- The checked `u32` decrement used for the counter resets
`self.samples_left = self.samples_per_tick - 1` and
`self.ticks_left = self.ticks_per_line - 1`: `none` models the debug-build
panic (underflow) when the operand is zero. -/
def resetCounter (n : Nat) : Option Nat := if n = 0 then none else some (n - 1)

/-- Reinterpret an unsigned byte as a signed 8-bit value (Rust `as i8`). -/
def toSigned8 (b : Nat) : Int :=
  if b % 256 < 128 then (b % 256 : Int) else (b % 256 : Int) - 256

/-- Two's-complement fold of an integer into the signed 8-bit range
[-128, 127] (release-mode `i8` wrapping). -/
def wrapS8 (x : Int) : Int := (x + 128) % 256 - 128

/-- The result of the line-finding loop in `next_sample`: either the song
position list is exhausted (sole termination condition) or a line was found;
both carry the final `position`/`line` cursor values the loop left behind. -/
inductive FindRes where
  | songOver (position line : Nat)
  | found (ln : Line) (position line : Nat)
deriving DecidableEq

/-- The `let line = loop { ... }` in `next_sample`: resolve the pattern for
the current song position (`none` models the `.expect("Get pattern")`
panic), fetch the line, and on a missing line restart at line 0 of the next
position.  The loop advances `position` by one on every retry and stops as
soon as the position list is exhausted, so `positions.length + 1` units of
fuel always suffice; the fuel-exhaustion branch returns `none` like a
panic. -/
def findLine (m : ModFile) (fuel position line : Nat) : Option FindRes :=
  match fuel with
  | 0 => none
  | fuel + 1 =>
    match m.song_position position with
    | none => some (FindRes.songOver position line)
    | some pattern_idx =>
      match m.pattern pattern_idx with
      | none => none
      | some pat =>
        match pat.line line with
        | some ln => some (FindRes.found ln position line)
        | none => findLine m fuel (position + 1) 0

/-- The scheduler fields a single channel's line load can modify. -/
structure Sched where
  ticks_per_line : Nat
  third_ticks_per_line : Nat
  pattern_break : Option Nat
deriving DecidableEq

/-- One iteration of the line-load loop in `next_sample` (lines 105–172 of
`player.rs`): assign the note's sample if it resolves (skipping silently if
it does not), then clear the recurring-effect slot and process the note's
effect. -/
def loadChannel (m : ModFile) (clock : Fractional) (note : Note)
    (ch : Channel) (s : Sched) : Channel × Sched :=
  let ch :=
    if note.is_empty then ch
    else
      match m.sample note.sample_no with
      | some smp =>
          let ch :=
            if note.period ≠ 0 then
              { ch with note_period := note.period,
                        note_step := clock.apply_period note.period }
            else ch
          { ch with volume := smp.volume,
                    sample_data := some smp.raw_sample_bytes,
                    sample_loops := smp.loops,
                    sample_length := smp.sample_length_bytes,
                    repeat_length := smp.repeat_length_bytes,
                    repeat_point := smp.repeat_point_bytes,
                    sample_position := Fractional.dflt }
      | none => ch
  let ch := { ch with effect := none }
  match note.effect with
  | some (Effect.arpeggio n) => ({ ch with effect := some (Effect.arpeggio n) }, s)
  | some (Effect.slideUp n) => ({ ch with effect := some (Effect.slideUp n) }, s)
  | some (Effect.slideDown n) => ({ ch with effect := some (Effect.slideDown n) }, s)
  | some (Effect.volumeSlide n) => ({ ch with effect := some (Effect.volumeSlide n) }, s)
  | some (Effect.setVolume v) => ({ ch with volume := v }, s)
  | some (Effect.setSpeed v) =>
      if v ≤ 31 then
        (ch, { s with ticks_per_line := v, third_ticks_per_line := v / 3 })
      else (ch, s)
  | some (Effect.sampleOffset n) =>
      ({ ch with sample_position := Fractional.new (n * 256) }, s)
  | some (Effect.patternBreak row) => (ch, { s with pattern_break := some row })
  | some Effect.other => (ch, s)
  | none => (ch, s)

/-- One channel's per-tick recurring-effect update (lines 184–233 of
`player.rs`), given the already-decremented `ticks_left`.  The `u16` slide
arithmetic wraps modulo 2^16 (release-build semantics). -/
def tickChannel (clock : Fractional) (third ticks_left : Nat)
    (ch : Channel) : Channel :=
  match ch.effect with
  | some (Effect.arpeggio n) =>
      if ticks_left = third * 2 then
        match shift_period ch.note_period ((n / 16 : Nat) : Int) with
        | some np =>
            { ch with note_period := np, note_step := clock.apply_period np }
        | none => ch
      else if ticks_left = third then
        match shift_period ch.note_period ((n % 16 : Int) - (n / 16 : Int)) with
        | some np =>
            { ch with note_period := np, note_step := clock.apply_period np }
        | none => ch
      else ch
  | some (Effect.slideUp n) =>
      let np := (ch.note_period + (65536 - n % 65536)) % 65536
      { ch with note_period := np, note_step := clock.apply_period np }
  | some (Effect.slideDown n) =>
      let np := (ch.note_period + n) % 65536
      { ch with note_period := np, note_step := clock.apply_period np }
  | some (Effect.volumeSlide n) =>
      let nv : Int := wrapS8 (toSigned8 ch.volume + n)
      if 0 ≤ nv ∧ nv ≤ 63 then { ch with volume := nv.toNat } else ch
  | _ => ch

/-- The line-boundary branch of `next_sample` (lines 71–177): consume a
pending pattern break, find the next line (setting `finished` and returning
early — the `Bool` is `true` — when the position list is exhausted), load
the four channels in order, and reset the tick and sample counters.  `none`
models a panic (pattern lookup or counter underflow). -/
def lineBoundary (p : Player) : Option (Bool × Player) :=
  let p :=
    match p.pattern_break with
    | some l => { p with pattern_break := none, position := p.position + 1, line := l }
    | none => p
  match findLine p.modfile (p.modfile.positions.length + 1) p.position p.line with
  | none => none
  | some (FindRes.songOver pos ln) =>
      some (true, { p with position := pos, line := ln, finished := true })
  | some (FindRes.found ln pos lnum) =>
      let p := { p with position := pos, line := lnum }
      let s : Sched :=
        ⟨p.ticks_per_line, p.third_ticks_per_line, p.pattern_break⟩
      let clock := p.clock_ticks_per_device_sample
      let (c0, s) := loadChannel p.modfile clock ln.ch0 p.ch0 s
      let (c1, s) := loadChannel p.modfile clock ln.ch1 p.ch1 s
      let (c2, s) := loadChannel p.modfile clock ln.ch2 p.ch2 s
      let (c3, s) := loadChannel p.modfile clock ln.ch3 p.ch3 s
      match resetCounter p.samples_per_tick, resetCounter s.ticks_per_line with
      | some sl, some tl =>
          some (false,
            { p with ch0 := c0, ch1 := c1, ch2 := c2, ch3 := c3,
                     ticks_per_line := s.ticks_per_line,
                     third_ticks_per_line := s.third_ticks_per_line,
                     pattern_break := s.pattern_break,
                     line := lnum + 1,
                     samples_left := sl, ticks_left := tl })
      | _, _ => none

/-- The tick-boundary branch of `next_sample` (lines 178–233): reset the
sample counter, decrement the tick counter, and apply every channel's
recurring effect at the new tick index. -/
def tickBoundary (p : Player) : Option Player :=
  match resetCounter p.samples_per_tick with
  | none => none
  | some sl =>
      let tl := p.ticks_left - 1
      let third := p.third_ticks_per_line
      let clock := p.clock_ticks_per_device_sample
      some { p with samples_left := sl, ticks_left := tl,
                    ch0 := tickChannel clock third tl p.ch0,
                    ch1 := tickChannel clock third tl p.ch1,
                    ch2 := tickChannel clock third tl p.ch2,
                    ch3 := tickChannel clock third tl p.ch3 }

/-- One channel's contribution to the mix (lines 242–273 of `player.rs`):
skip if the period or sample length is zero or no sample is assigned;
otherwise read the waveform byte at the truncated position (`none` models
the unchecked out-of-bounds pointer read, which is undefined behaviour),
scale it by 256 and the volume over 64, advance the fractional position,
and either wrap a looping sample at `repeat_point + repeat_length` or stop
a non-looping one past `sample_length`. -/
def mixChannel (ch : Channel) : Option (Int × Channel) :=
  if ch.note_period = 0 ∨ ch.sample_length = 0 then some (0, ch)
  else
    match ch.sample_data with
    | none => some (0, ch)
    | some data =>
      match data.get? ch.sample_position.as_index with
      | none => none
      | some b =>
        let channel_value := Int.tdiv (toSigned8 b * 256 * (ch.volume : Int)) 64
        let ch := { ch with sample_position := ch.sample_position + ch.note_step }
        let ch :=
          if ch.sample_loops then
            if ch.repeat_point + ch.repeat_length ≤ ch.sample_position.as_index then
              { ch with sample_position := Fractional.new ch.repeat_point }
            else ch
          else if ch.sample_length ≤ ch.sample_position.as_index then
            { ch with note_period := 0 }
          else ch
        some (channel_value, ch)

/-- Clip a mixed value to the signed 16-bit range,
`clamp(-32768, 32767)`. -/
def clip16 (x : Int) : Int := max (-32768) (min 32767 x)

/-- The mixing stage of `next_sample` (lines 239–278): pump the four
channels in order, route channels 0 and 3 to the left and 1 and 2 to the
right, and clip both sums. -/
def mix (p : Player) : Option ((Int × Int) × Player) :=
  match mixChannel p.ch0 with
  | none => none
  | some (v0, c0) =>
    match mixChannel p.ch1 with
    | none => none
    | some (v1, c1) =>
      match mixChannel p.ch2 with
      | none => none
      | some (v2, c2) =>
        match mixChannel p.ch3 with
        | none => none
        | some (v3, c3) =>
          some ((clip16 (v0 + v3), clip16 (v1 + v2)),
                { p with ch0 := c0, ch1 := c1, ch2 := c2, ch3 := c3 })

/-- `Player::next_sample`: one scheduler phase (line boundary, tick
boundary, or plain sample-counter decrement) followed by the mixing stage;
the song-over case returns the silent frame without mixing.  `none` models a
panic or undefined behaviour anywhere in the call.  The
`core::fmt::Write` trace argument of the source only receives discarded
formatted text and cannot affect the player state, so it is omitted. -/
def next_sample (p : Player) : Option ((Int × Int) × Player) :=
  if p.ticks_left = 0 ∧ p.samples_left = 0 then
    match lineBoundary p with
    | none => none
    | some (true, q) => some ((0, 0), q)
    | some (false, q) => mix q
  else if p.samples_left = 0 then
    match tickBoundary p with
    | none => none
    | some q => mix q
  else
    mix { p with samples_left := p.samples_left - 1 }

/-- The state after a number of `next_sample` calls; `none` once any call
panicked. -/
def runState : Nat → Player → Option Player
  | 0, p => some p
  | n + 1, p =>
    match next_sample p with
    | none => none
    | some (_, q) => runState n q

/-- The list of stereo frames produced by a number of `next_sample` calls;
`none` once any call panicked. -/
def runOutputs : Nat → Player → Option (List (Int × Int))
  | 0, _ => some []
  | n + 1, p =>
    match next_sample p with
    | none => none
    | some (o, q) => (runOutputs n q).map (o :: ·)

/-- A player state reachable from `Player.new` by some number of
`next_sample` calls. -/
def Reachable (m : ModFile) (rate : Nat) (p : Player) : Prop :=
  ∃ n, runState n (Player.new m rate) = some p

/-- A note whose set-speed effect value, when in the tick-count range
(≤ 31), is at least 1. -/
def NoteOk (nt : Note) : Bool :=
  match nt.effect with
  | some (Effect.setSpeed v) => decide (v ≤ 31 → 1 ≤ v)
  | _ => true

/-- Every note of the line satisfies `NoteOk`. -/
def LineOk (ln : Line) : Bool :=
  NoteOk ln.ch0 && NoteOk ln.ch1 && NoteOk ln.ch2 && NoteOk ln.ch3

/-- Every set-speed effect value in the module that is ≤ 31 is also ≥ 1. -/
def ModOk (m : ModFile) : Bool :=
  m.patterns.all fun pat => pat.lines.all LineOk

/-- A note that carries no event at all. -/
def emptyNote : Note := { is_empty := true, sample_no := 0, period := 0, effect := none }

/-- A ten-byte looping sample whose loop region is the first two bytes. -/
def exS1 : Sample :=
  { raw_sample_bytes := [10, 20, 30, 40, 50, 60, 70, 80, 90, 100], volume := 64,
    loops := true, repeat_point_bytes := 0, repeat_length_bytes := 2 }

/-- A one-line module that starts `exS1` on channel 0 at period 1. -/
def exM1 : ModFile :=
  { positions := [0],
    patterns := [⟨[⟨{ is_empty := false, sample_no := 1, period := 1, effect := none },
                    emptyNote, emptyNote, emptyNote⟩]⟩],
    samples := [none, some exS1] }

/-- An empty module: its position list is exhausted immediately. -/
def exM0 : ModFile := { positions := [], patterns := [], samples := [] }

/-- The finished state reached after one `next_sample` call on the empty
module. -/
def exPF : Player := { Player.new exM0 100 with finished := true }

/-- A channel at volume 1 carrying a volume-slide decrease of 2. -/
def exCh3 : Channel :=
  { Channel.init with volume := 1, effect := some (Effect.volumeSlide (-2)) }

/-- A channel at period 100 carrying a slide-up of 3. -/
def exCh4 : Channel :=
  { Channel.init with note_period := 100, effect := some (Effect.slideUp 3) }

/-- A module with no samples at all, so every sample lookup fails. -/
def exM5 : ModFile := { positions := [0], patterns := [], samples := [] }

/-- A channel with prior volume 5 and an active recurring slide-up. -/
def exCh5 : Channel :=
  { Channel.init with volume := 5, effect := some (Effect.slideUp 1) }

/-- A note referencing nonexistent sample 7 while carrying a set-volume
effect. -/
def note5 : Note :=
  { is_empty := false, sample_no := 7, period := 100,
    effect := some (Effect.setVolume 60) }

/-- A note whose set-volume effect value 100 exceeds the nominal maximum
of 64. -/
def note6 : Note :=
  { is_empty := false, sample_no := 0, period := 0,
    effect := some (Effect.setVolume 100) }

/-- A one-line module that plays a four-byte non-looping sample with a
sample-offset effect of 1, i.e. a starting read position of 256 bytes. -/
def exM8 : ModFile :=
  { positions := [0],
    patterns := [⟨[⟨{ is_empty := false, sample_no := 1, period := 214,
                      effect := some (Effect.sampleOffset 1) },
                    emptyNote, emptyNote, emptyNote⟩]⟩],
    samples := [none, some { raw_sample_bytes := [1, 2, 3, 4], volume := 64,
                             loops := false, repeat_point_bytes := 0,
                             repeat_length_bytes := 0 }] }

/-- The shape of every state in which the finished flag is set: both
counters at zero, no pending pattern break, and the song position list
exhausted at the current position. -/
def FinishedInv (p : Player) : Prop :=
  p.finished = true →
    p.samples_left = 0 ∧ p.ticks_left = 0 ∧ p.pattern_break = none ∧
    p.modfile.song_position p.position = none

/-- A looping three-byte channel positioned one byte before its loop
boundary, advancing one byte per frame. -/
def exCh1w : Channel :=
  { Channel.init with
      sample_data := some [1, 2, 3], sample_loops := true,
      sample_length := 3, repeat_point := 0, repeat_length := 2,
      note_period := 1, sample_position := ⟨65536⟩, note_step := ⟨65536⟩ }

/-- C3 counterexample: a channel at volume 1 with a volume-slide decrease
of 2 keeps volume 1 after the tick — the claimed "volume -= y floored at 0"
would give 0, so the claim is false on the code. -/
theorem c3_counterexample :
    (tickChannel ⟨0⟩ 2 1 exCh3).volume = 1 ∧
    ¬ (tickChannel ⟨0⟩ 2 1 exCh3).volume = 0 := by
  decide

/-- C3 (amended): a volume-slide tick either leaves the channel volume
unchanged or stores a value in [0, 63]; the code does not clamp, it skips
out-of-range results entirely.  Consequently a volume that starts ≤ 64
stays ≤ 64 across volume-slide ticks. -/
theorem volume_slide_skips_out_of_range :
    ∀ clock third tl ch,
      ((tickChannel clock third tl ch).volume = ch.volume ∨
        (tickChannel clock third tl ch).volume ≤ 63) ∧
      (ch.volume ≤ 64 → (tickChannel clock third tl ch).volume ≤ 64) := by
  intro clock third tl ch
  have h : (tickChannel clock third tl ch).volume = ch.volume ∨
      (tickChannel clock third tl ch).volume ≤ 63 := by
    obtain ⟨d, lp, sl, rl, rp, vol, np0, spos, nstep, eff⟩ := ch
    cases eff with
    | none => left; rfl
    | some e =>
      cases e with
      | arpeggio n =>
          simp only [tickChannel]
          repeat' split
          all_goals simp
      | slideUp n => left; rfl
      | slideDown n => left; rfl
      | volumeSlide n =>
          simp only [tickChannel]
          split
          · next hc => right; simp only [Channel.volume]; omega
          · left; rfl
      | setVolume v => left; rfl
      | setSpeed v => left; rfl
      | sampleOffset n => left; rfl
      | patternBreak row => left; rfl
      | other => left; rfl
  refine ⟨h, fun hv => ?_⟩
  rcases h with h | h
  · omega
  · omega

/-- C3 witness: the amended theorem applied to the concrete channel
`exCh3`, whose volume 1 is within [0, 64]. -/
theorem volume_slide_skips_out_of_range_witness :
    (tickChannel ⟨0⟩ 2 1 exCh3).volume ≤ 64 :=
  (volume_slide_skips_out_of_range ⟨0⟩ 2 1 exCh3).2 (by decide)
/-- C4: each slide-up tick updates the period to pitch − n and each
slide-down tick to pitch + n (wrapping modulo 2^16, the u16 unit range, so
the stored period always stays inside [0, 2^16)), and the waveform read
index consumed by the mixer is a natural number, never below zero. -/
theorem slide_period_in_range_index_nonneg :
    (∀ clock third tl ch n, ch.effect = some (Effect.slideUp n) →
      (tickChannel clock third tl ch).note_period < 65536 ∧
      (n ≤ ch.note_period → ch.note_period < 65536 →
        (tickChannel clock third tl ch).note_period = ch.note_period - n)) ∧
    (∀ clock third tl ch n, ch.effect = some (Effect.slideDown n) →
      (tickChannel clock third tl ch).note_period < 65536 ∧
      (ch.note_period + n < 65536 →
        (tickChannel clock third tl ch).note_period = ch.note_period + n)) ∧
    (∀ ch v ch2, mixChannel ch = some (v, ch2) →
      (0 : Int) ≤ (ch.sample_position.as_index : Int)) := by
  refine ⟨?_, ?_, ?_⟩
  · intro clock third tl ch n heff
    obtain ⟨d, lp, sl, rl, rp, vol, np0, spos, nstep, eff⟩ := ch
    subst heff
    simp only [tickChannel]
    constructor
    · exact Nat.mod_lt _ (by omega)
    · intro h1 h2
      omega
  · intro clock third tl ch n heff
    obtain ⟨d, lp, sl, rl, rp, vol, np0, spos, nstep, eff⟩ := ch
    subst heff
    simp only [tickChannel]
    constructor
    · exact Nat.mod_lt _ (by omega)
    · intro h1
      omega
  · intro ch v ch2 _
    exact Int.ofNat_nonneg _

/-- C4 witness: the slide-up clause applied to the concrete channel
`exCh4` at period 100 with n = 3 gives period 97, and a mixed silent
channel has a nonnegative read index. -/
theorem slide_period_in_range_index_nonneg_witness :
    (tickChannel ⟨0⟩ 2 1 exCh4).note_period = 97 ∧
    (0 : Int) ≤ (Channel.init.sample_position.as_index : Int) := by
  constructor
  · exact ((slide_period_in_range_index_nonneg.1 ⟨0⟩ 2 1 exCh4 3 rfl).2
      (by decide) (by decide))
  · exact slide_period_in_range_index_nonneg.2.2 Channel.init 0 Channel.init rfl

/-- C5 counterexample: `note5` references nonexistent sample 7, yet loading
it onto `exCh5` changes the channel's volume from 5 to 60 (the note's
set-volume effect is still processed) and clears the previously active
recurring slide-up effect — the prior state is not left unchanged. -/
theorem c5_counterexample :
    exM5.sample note5.sample_no = none ∧
    exCh5.volume = 5 ∧ exCh5.effect = some (Effect.slideUp 1) ∧
    (loadChannel exM5 ⟨0⟩ note5 exCh5 ⟨6, 2, none⟩).1.volume = 60 ∧
    ¬ (loadChannel exM5 ⟨0⟩ note5 exCh5 ⟨6, 2, none⟩).1.volume = 5 ∧
    (loadChannel exM5 ⟨0⟩ note5 exCh5 ⟨6, 2, none⟩).1.effect = none := by
  decide

/-- C5 (amended): when a non-empty note's sample number does not resolve,
the sample-assignment fields (sample data, loop flag, lengths, repeat
point), the pitch and the step of the channel are left unchanged and
playback continues, but the previously active recurring effect is cleared
and the note's effect is still processed; in particular, if the note
carries no effect the result is exactly the prior channel with the
recurring-effect slot cleared and the scheduler fields untouched. -/
theorem missing_sample_skips_assignment :
    ∀ m clock note ch s, m.sample note.sample_no = none →
      ((loadChannel m clock note ch s).1.sample_data = ch.sample_data ∧
       (loadChannel m clock note ch s).1.sample_loops = ch.sample_loops ∧
       (loadChannel m clock note ch s).1.sample_length = ch.sample_length ∧
       (loadChannel m clock note ch s).1.repeat_point = ch.repeat_point ∧
       (loadChannel m clock note ch s).1.repeat_length = ch.repeat_length ∧
       (loadChannel m clock note ch s).1.note_period = ch.note_period ∧
       (loadChannel m clock note ch s).1.note_step = ch.note_step) ∧
      (note.effect = none →
        (loadChannel m clock note ch s).1 = { ch with effect := none } ∧
        (loadChannel m clock note ch s).2 = s) := by
  intro m clock note ch s hmiss
  obtain ⟨ne, nsn, np, neff⟩ := note
  simp only at hmiss
  cases neff with
  | none =>
      cases ne <;> simp [loadChannel, hmiss]
  | some e =>
      refine ⟨?_, by simp⟩
      cases e <;> cases ne <;>
        simp [loadChannel, hmiss] <;> split <;> simp

/-- C5 witness: the amended theorem applied to the concrete missing-sample
load of `note5` onto `exCh5`: the assignment fields survive. -/
theorem missing_sample_skips_assignment_witness :
    (loadChannel exM5 ⟨0⟩ note5 exCh5 ⟨6, 2, none⟩).1.note_period =
      exCh5.note_period :=
  ((missing_sample_skips_assignment exM5 ⟨0⟩ note5 exCh5 ⟨6, 2, none⟩
      (by decide)).1).2.2.2.2.2.1

/-- C6 counterexample: a set-volume effect with value 100 assigns volume
100 to the channel — the code stores the value as-is, it does not clamp to
[0, 64]. -/
theorem c6_counterexample :
    (loadChannel exM5 ⟨0⟩ note6 Channel.init ⟨6, 2, none⟩).1.volume = 100 ∧
    ¬ (loadChannel exM5 ⟨0⟩ note6 Channel.init ⟨6, 2, none⟩).1.volume ≤ 64 := by
  decide

/-- C6 (amended): a set-volume effect at line load assigns the effect's
value to the channel volume directly, with no clamping. -/
theorem set_volume_assigns_unclamped :
    ∀ m clock note ch s v, note.effect = some (Effect.setVolume v) →
      (loadChannel m clock note ch s).1.volume = v := by
  intro m clock note ch s v heff
  obtain ⟨ne, nsn, np, neff⟩ := note
  simp only at heff
  subst heff
  simp [loadChannel]

/-- C6 witness: the amended theorem applied to the concrete load of
`note6`, whose set-volume value is 100. -/
theorem set_volume_assigns_unclamped_witness :
    (loadChannel exM5 ⟨0⟩ note6 Channel.init ⟨6, 2, none⟩).1.volume = 100 :=
  set_volume_assigns_unclamped exM5 ⟨0⟩ note6 Channel.init ⟨6, 2, none⟩ 100 rfl

/-- C1 counterexample: playing the looping ten-byte sample `exS1` (loop
region bytes [0, 2)) at one byte per output frame, the voice's FIRST
traversal wraps as soon as the position reaches byte 2 — after two frames
the read position is back at 0 even though the sample's full stored length
is 10 and byte 2 was never read.  The first traversal is therefore bounded
by the loop region, not by the full stored length, and no first-pass flag
exists in the channel state. -/
theorem c1_counterexample :
    (runState 1 (Player.new exM1 3546895)).map
        (fun q => (q.ch0.sample_position.as_index, q.ch0.sample_length,
                   q.ch0.repeat_point + q.ch0.repeat_length,
                   q.ch0.sample_loops)) = some (1, 10, 2, true) ∧
    (runState 2 (Player.new exM1 3546895)).map
        (fun q => q.ch0.sample_position.as_index) = some 0 := by
  constructor
  · rfl
  · rfl

/-- C1 (amended): for every looping channel, every traversal — the first
included — is bounded by the loop region: whenever the mixer advances the
position to or past `repeat_point + repeat_length` it resets it to
`repeat_point`, so after each mix step the read position is inside the
loop bound or exactly at the loop start.  The channel state carries no
first-pass flag and `mixChannel` makes no first-pass distinction. -/
theorem loop_wrap_bounds_every_pass :
    ∀ ch data v ch2, ch.sample_data = some data →
      mixChannel ch = some (v, ch2) →
      ch.sample_loops = true → ch.note_period ≠ 0 → ch.sample_length ≠ 0 →
      ch2.sample_position.as_index < ch.repeat_point + ch.repeat_length ∨
        ch2.sample_position.as_index = ch.repeat_point := by
  intro ch data v ch2 hdata hmix hloops hper hlen
  obtain ⟨d, lp, sl, rl, rp, vol, np0, spos, nstep, eff⟩ := ch
  subst hdata
  subst hloops
  simp only [mixChannel] at hmix
  rw [if_neg (not_or.mpr ⟨hper, hlen⟩)] at hmix
  cases hget : data.get? spos.as_index with
  | none =>
      rw [hget] at hmix
      exact absurd hmix (by simp)
  | some b =>
      rw [hget] at hmix
      simp only [Option.some.injEq, Prod.mk.injEq] at hmix
      obtain ⟨-, hch2⟩ := hmix
      by_cases hwrap : rp + rl ≤ (spos + nstep).as_index
      · right
        rw [if_pos (by trivial), if_pos hwrap] at hch2
        rw [← hch2]
        simp only [Fractional.new, Fractional.as_index]
        omega
      · left
        rw [if_pos (by trivial), if_neg hwrap] at hch2
        rw [← hch2]
        simp only []
        omega

/-- C1 witness: the amended theorem applied to the concrete looping channel
`exCh1w`, one byte before its loop boundary, whose mix wraps it to the loop
start. -/
theorem loop_wrap_bounds_every_pass_witness :
    ({ exCh1w with sample_position := (⟨0⟩ : Fractional) } :
        Channel).sample_position.as_index <
      exCh1w.repeat_point + exCh1w.repeat_length ∨
    ({ exCh1w with sample_position := (⟨0⟩ : Fractional) } :
        Channel).sample_position.as_index = exCh1w.repeat_point :=
  loop_wrap_bounds_every_pass exCh1w [1, 2, 3] 0
    { exCh1w with sample_position := ⟨0⟩ } rfl (by decide) rfl
    (by decide) (by decide)

/-- C7: the engine is deterministic — two players constructed from the same
module data and the same sample rate and driven by the same number of
`next_sample` requests produce identical output sequences; `next_sample` is
a pure function of the player state, with no hidden timers and no
randomness. -/
theorem identical_players_identical_output :
    ∀ (m : ModFile) (rate n : Nat) (p1 p2 : Player),
      p1 = Player.new m rate → p2 = Player.new m rate →
      runOutputs n p1 = runOutputs n p2 := by
  intro m rate n p1 p2 h1 h2
  subst h1
  subst h2
  rfl

/-- C7 witness: two players built from the one-line module `exM1` at
44100 Hz agree on their first 8 frames. -/
theorem identical_players_identical_output_witness :
    runOutputs 8 (Player.new exM1 44100) = runOutputs 8 (Player.new exM1 44100) :=
  identical_players_identical_output exM1 44100 8 (Player.new exM1 44100)
    (Player.new exM1 44100) rfl rfl

/-- C8: in the module `exM8`, a sample-offset effect of 1 on a four-byte
sample puts the truncated read index at 256 ≥ 4 for the very first mixed
frame, so the unchecked waveform read in `next_sample` is out of bounds
(undefined behaviour, modelled as `none`) — the in-bounds claim is the
intended safety property and the code violates it. -/
theorem sample_offset_reads_out_of_bounds :
    (lineBoundary (Player.new exM8 44100)).map
        (fun r => (r.2.ch0.sample_position.as_index, r.2.ch0.sample_length)) =
      some (256, 4) ∧
    next_sample (Player.new exM8 44100) = none := by
  constructor
  · rfl
  · rfl

/-- When the line-finding loop reports the song over, the song position
list really is exhausted at the returned position. -/
theorem findLine_songOver_pos :
    ∀ m fuel pos line q r,
      findLine m fuel pos line = some (FindRes.songOver q r) →
      m.song_position q = none := by
  intro m fuel
  induction fuel with
  | zero => intro pos line q r h; simp [findLine] at h
  | succ fuel ih =>
      intro pos line q r h
      unfold findLine at h
      repeat' split at h
      · simp only [Option.some.injEq, FindRes.songOver.injEq] at h
        obtain ⟨hq, -⟩ := h
        subst hq
        assumption
      · exact absurd h (by simp)
      · simp at h
      · exact ih _ _ _ _ h

/-- When the line-finding loop returns a line, that line belongs to one of
the module's patterns. -/
theorem findLine_found_mem :
    ∀ m fuel pos line ln q r,
      findLine m fuel pos line = some (FindRes.found ln q r) →
      ∃ pat, pat ∈ m.patterns ∧ ln ∈ pat.lines := by
  intro m fuel
  induction fuel with
  | zero => intro pos line ln q r h; simp [findLine] at h
  | succ fuel ih =>
      intro pos line ln q r h
      unfold findLine at h
      repeat' split at h
      · simp at h
      · exact absurd h (by simp)
      · next optP pat hpat optL lnv hlineq =>
          simp only [Option.some.injEq, FindRes.found.injEq] at h
          obtain ⟨hln, -, -⟩ := h
          subst hln
          exact ⟨pat, List.get?_mem hpat, List.get?_mem hlineq⟩
      · exact ih _ _ _ _ _ h

/-- The mixing stage touches only the four channels: every scheduler field
of the player survives it unchanged. -/
theorem mix_preserves_sched :
    ∀ p o q, mix p = some (o, q) →
      q.modfile = p.modfile ∧ q.samples_left = p.samples_left ∧
      q.ticks_left = p.ticks_left ∧ q.ticks_per_line = p.ticks_per_line ∧
      q.third_ticks_per_line = p.third_ticks_per_line ∧
      q.samples_per_tick = p.samples_per_tick ∧ q.position = p.position ∧
      q.line = p.line ∧ q.finished = p.finished ∧
      q.pattern_break = p.pattern_break := by
  intro p o q h
  unfold mix at h
  repeat' split at h
  all_goals first
    | exact Option.noConfusion h
    | (simp only [Option.some.injEq, Prod.mk.injEq] at h
       obtain ⟨-, hq⟩ := h
       subst hq
       simp)

/-- The tick-boundary branch touches only the counters and the channels:
the tempo, cursor and termination fields survive it unchanged. -/
theorem tickBoundary_preserves :
    ∀ p q, tickBoundary p = some q →
      q.modfile = p.modfile ∧ q.ticks_per_line = p.ticks_per_line ∧
      q.third_ticks_per_line = p.third_ticks_per_line ∧
      q.samples_per_tick = p.samples_per_tick ∧ q.position = p.position ∧
      q.line = p.line ∧ q.finished = p.finished ∧
      q.pattern_break = p.pattern_break := by
  intro p q h
  unfold tickBoundary at h
  repeat' split at h
  all_goals first
    | exact Option.noConfusion h
    | (simp only [Option.some.injEq] at h
       subst h
       simp)

/-- The line-boundary branch either reports the song over — leaving the
counters untouched, consuming any pattern break, and standing on an
exhausted song position — or loads a line without touching the finished
flag, the module or the samples-per-tick ratio. -/
theorem lineBoundary_cases :
    ∀ p b q, lineBoundary p = some (b, q) →
      (b = true ∧ q.finished = true ∧ q.modfile = p.modfile ∧
       q.samples_left = p.samples_left ∧ q.ticks_left = p.ticks_left ∧
       q.ticks_per_line = p.ticks_per_line ∧
       q.samples_per_tick = p.samples_per_tick ∧ q.pattern_break = none ∧
       q.modfile.song_position q.position = none) ∨
      (b = false ∧ q.finished = p.finished ∧ q.modfile = p.modfile ∧
       q.samples_per_tick = p.samples_per_tick) := by
  intro p b q h
  unfold lineBoundary at h
  rcases hpb : p.pattern_break with _ | brk
  · simp only [hpb] at h
    rcases hfind : findLine p.modfile (p.modfile.positions.length + 1)
        p.position p.line with _ | (⟨pos, ln⟩ | ⟨ln, pos, lnum⟩)
    · simp only [hfind] at h
      exact Option.noConfusion h
    · simp only [hfind, Option.some.injEq, Prod.mk.injEq] at h
      obtain ⟨hb, hq⟩ := h
      subst hq
      subst hb
      left
      refine ⟨rfl, rfl, rfl, rfl, rfl, rfl, rfl, rfl, ?_⟩
      exact findLine_songOver_pos _ _ _ _ _ _ hfind
    · simp only [hfind] at h
      split at h
      · simp only [Option.some.injEq, Prod.mk.injEq] at h
        obtain ⟨hb, hq⟩ := h
        subst hq
        subst hb
        right
        exact ⟨rfl, rfl, rfl, rfl⟩
      · exact Option.noConfusion h
  · simp only [hpb] at h
    rcases hfind : findLine p.modfile (p.modfile.positions.length + 1)
        (p.position + 1) brk with _ | (⟨pos, ln⟩ | ⟨ln, pos, lnum⟩)
    · simp only [hfind] at h
      exact Option.noConfusion h
    · simp only [hfind, Option.some.injEq, Prod.mk.injEq] at h
      obtain ⟨hb, hq⟩ := h
      subst hq
      subst hb
      left
      refine ⟨rfl, rfl, rfl, rfl, rfl, rfl, rfl, rfl, ?_⟩
      exact findLine_songOver_pos _ _ _ _ _ _ hfind
    · simp only [hfind] at h
      split at h
      · simp only [Option.some.injEq, Prod.mk.injEq] at h
        obtain ⟨hb, hq⟩ := h
        subst hq
        subst hb
        right
        exact ⟨rfl, rfl, rfl, rfl⟩
      · exact Option.noConfusion h

/-- No branch of `next_sample` ever clears the finished flag. -/
theorem next_sample_finished_mono :
    ∀ p o q, next_sample p = some (o, q) → p.finished = true →
      q.finished = true := by
  intro p o q h hfin
  unfold next_sample at h
  split at h
  · rcases hlb : lineBoundary p with _ | ⟨b, r⟩
    · rw [hlb] at h; exact Option.noConfusion h
    · rw [hlb] at h
      rcases lineBoundary_cases p b r hlb with hc | hc
      · obtain ⟨hb, hrf, -⟩ := hc
        subst hb
        simp only [Option.some.injEq, Prod.mk.injEq] at h
        obtain ⟨-, hq⟩ := h
        subst hq
        exact hrf
      · obtain ⟨hb, hrf, -⟩ := hc
        subst hb
        have hm := mix_preserves_sched r o q h
        rw [hm.2.2.2.2.2.2.2.2.1, hrf]
        exact hfin
  · split at h
    · rcases htb : tickBoundary p with _ | r
      · rw [htb] at h; exact Option.noConfusion h
      · rw [htb] at h
        have ht := tickBoundary_preserves p r htb
        have hm := mix_preserves_sched r o q h
        rw [hm.2.2.2.2.2.2.2.2.1, ht.2.2.2.2.2.2.1]
        exact hfin
    · have hm := mix_preserves_sched _ o q h
      rw [hm.2.2.2.2.2.2.2.2.1]
      exact hfin

/-- In any state satisfying `FinishedInv` whose finished flag is set,
`next_sample` takes the early song-end return: it emits the silent frame
and leaves the state bit-for-bit unchanged. -/
theorem finished_next_sample_fixpoint :
    ∀ p, FinishedInv p → p.finished = true →
      next_sample p = some (((0 : Int), (0 : Int)), p) := by
  intro p hinv hfin
  obtain ⟨h1, h2, h3, h4⟩ := hinv hfin
  obtain ⟨mf, sl, tl, tpl, ttpl, spt, clk, pos, lnum, fin, pb, a, b, c, d⟩ := p
  simp only at h1 h2 h3 h4 hfin
  subst h1
  subst h2
  subst h3
  subst hfin
  unfold next_sample
  rw [if_pos ⟨rfl, rfl⟩]
  unfold lineBoundary
  simp only [findLine, h4]

/-- When a `next_sample` call first sets the finished flag, the resulting
state has both counters at zero, no pending pattern break, and an exhausted
song position: the flag is only ever set by the early song-end return. -/
theorem next_sample_fresh_finished :
    ∀ p o q, next_sample p = some (o, q) → p.finished = false →
      q.finished = true →
      q.samples_left = 0 ∧ q.ticks_left = 0 ∧ q.pattern_break = none ∧
        q.modfile.song_position q.position = none := by
  intro p o q h hpf hqf
  unfold next_sample at h
  split at h
  · next hcond =>
      rcases hlb : lineBoundary p with _ | ⟨b, r⟩
      · rw [hlb] at h; exact Option.noConfusion h
      · rw [hlb] at h
        rcases lineBoundary_cases p b r hlb with hc | hc
        · obtain ⟨hb, hrf, hrm, hrs, hrt, -, -, hrpb, hrsp⟩ := hc
          subst hb
          simp only [Option.some.injEq, Prod.mk.injEq] at h
          obtain ⟨-, hq⟩ := h
          subst hq
          exact ⟨by rw [hrs]; exact hcond.2, by rw [hrt]; exact hcond.1,
            hrpb, hrsp⟩
        · obtain ⟨hb, hrf, -⟩ := hc
          subst hb
          have hm := mix_preserves_sched r o q h
          rw [hm.2.2.2.2.2.2.2.2.1, hrf] at hqf
          exact absurd hqf (by rw [hpf]; exact Bool.false_ne_true)
  · split at h
    · rcases htb : tickBoundary p with _ | r
      · rw [htb] at h; exact Option.noConfusion h
      · rw [htb] at h
        have ht := tickBoundary_preserves p r htb
        have hm := mix_preserves_sched r o q h
        rw [hm.2.2.2.2.2.2.2.2.1, ht.2.2.2.2.2.2.1, hpf] at hqf
        exact absurd hqf Bool.false_ne_true
    · have hm := mix_preserves_sched _ o q h
      rw [hm.2.2.2.2.2.2.2.2.1] at hqf
      simp only at hqf
      rw [hpf] at hqf
      exact absurd hqf Bool.false_ne_true

/-- A property preserved by `next_sample` holds in every state a run can
reach from a state satisfying it. -/
theorem runState_preserves (P : Player → Prop)
    (hstep : ∀ p o q, next_sample p = some (o, q) → P p → P q) :
    ∀ n p0 p, runState n p0 = some p → P p0 → P p := by
  intro n
  induction n with
  | zero =>
      intro p0 p h hp
      unfold runState at h
      simp only [Option.some.injEq] at h
      subst h
      exact hp
  | succ n ih =>
      intro p0 p h hp
      unfold runState at h
      rcases hns : next_sample p0 with _ | ⟨o, q⟩
      · rw [hns] at h; exact Option.noConfusion h
      · rw [hns] at h
        exact ih q p h (hstep p0 o q hns hp)

/-- Every reachable state satisfies `FinishedInv`. -/
theorem reachable_finishedInv :
    ∀ m rate p, Reachable m rate p → FinishedInv p := by
  intro m rate p hreach
  obtain ⟨n, hrun⟩ := hreach
  refine runState_preserves FinishedInv ?_ n (Player.new m rate) p hrun ?_
  · intro p1 o q h hinv hqf
    by_cases hpf : p1.finished = true
    · have hfix := finished_next_sample_fixpoint p1 hinv hpf
      rw [hfix] at h
      simp only [Option.some.injEq, Prod.mk.injEq] at h
      obtain ⟨-, hq⟩ := h
      subst hq
      exact hinv hpf
    · exact next_sample_fresh_finished p1 o q h
        (Bool.not_eq_true p1.finished |>.mp hpf) hqf
  · intro hfin
    exact absurd hfin (by simp [Player.new])

/-- Once a state satisfies `FinishedInv` with the flag set, every further
run emits only silent frames. -/
theorem finished_silent_run :
    ∀ p, FinishedInv p → p.finished = true →
      ∀ n, runOutputs n p = some (List.replicate n ((0 : Int), (0 : Int))) := by
  intro p hinv hfin n
  induction n with
  | zero => rfl
  | succ n ih =>
      unfold runOutputs
      rw [finished_next_sample_fixpoint p hinv hfin]
      simp only [ih, List.replicate_succ]
      rfl

/-- C2: the finished flag is monotone — no `next_sample` call ever clears
it — and from any reachable state in which it is set, every subsequent
call returns the silent frame (0, 0), indefinitely and without panicking
(the run never hits a `none`). -/
theorem finished_monotone_and_silent :
    (∀ p o q, next_sample p = some (o, q) → p.finished = true →
      q.finished = true) ∧
    (∀ m rate p, Reachable m rate p → p.finished = true →
      ∀ n, runOutputs n p = some (List.replicate n ((0 : Int), (0 : Int)))) := by
  refine ⟨next_sample_finished_mono, fun m rate p hreach hfin n => ?_⟩
  exact finished_silent_run p (reachable_finishedInv m rate p hreach) hfin n

/-- C2 witness: the player of the empty module is finished after one call
and its next two frames are both silent. -/
theorem finished_monotone_and_silent_witness :
    runOutputs 2 exPF = some (List.replicate 2 ((0 : Int), (0 : Int))) :=
  finished_monotone_and_silent.2 exM0 100 exPF ⟨1, by decide⟩ rfl 2

/-- C9: once the finished flag is set, a `next_sample` call on any
reachable state returns (0, 0) through the early song-end return and
leaves every field of the player — the four channel states, counters and
cursors included — unchanged. -/
theorem finished_state_unchanged :
    ∀ m rate p, Reachable m rate p → p.finished = true →
      next_sample p = some (((0 : Int), (0 : Int)), p) := by
  intro m rate p hreach hfin
  exact finished_next_sample_fixpoint p (reachable_finishedInv m rate p hreach)
    hfin

/-- C9 witness: one call on the concrete finished state `exPF` returns the
silent frame and exactly `exPF` again. -/
theorem finished_state_unchanged_witness :
    next_sample exPF = some (((0 : Int), (0 : Int)), exPF) :=
  finished_state_unchanged exM0 100 exPF ⟨1, by decide⟩ rfl

/-- A single channel load keeps the ticks-per-line positive as long as the
note's set-speed value (if any, and if ≤ 31) is at least 1. -/
theorem loadChannel_ticks_pos :
    ∀ m clock note ch s, NoteOk note = true → 1 ≤ s.ticks_per_line →
      1 ≤ ((loadChannel m clock note ch s).2).ticks_per_line := by
  intro m clock note ch s hok hpos
  obtain ⟨ne, nsn, np, neff⟩ := note
  cases neff with
  | none => exact hpos
  | some e =>
      cases e with
      | arpeggio n => exact hpos
      | slideUp n => exact hpos
      | slideDown n => exact hpos
      | volumeSlide n => exact hpos
      | setVolume v => exact hpos
      | setSpeed v =>
          simp only [NoteOk, decide_eq_true_eq] at hok
          simp only [loadChannel]
          split
          · next hle => exact hok hle
          · exact hpos
      | sampleOffset n => exact hpos
      | patternBreak row => exact hpos
      | other => exact hpos

/-- Loading a full line from a module whose set-speed values are all
positive keeps the ticks-per-line positive. -/
theorem lineBoundary_ticks_pos :
    ∀ p b q, ModOk p.modfile = true → 1 ≤ p.ticks_per_line →
      lineBoundary p = some (b, q) → 1 ≤ q.ticks_per_line := by
  intro p b q hmod hpos h
  unfold lineBoundary at h
  rcases hpb : p.pattern_break with _ | brk
  all_goals simp only [hpb] at h
  · rcases hfind : findLine p.modfile (p.modfile.positions.length + 1)
        p.position p.line with _ | (⟨pos, ln⟩ | ⟨ln, pos, lnum⟩)
    · simp only [hfind] at h
      exact Option.noConfusion h
    · simp only [hfind, Option.some.injEq, Prod.mk.injEq] at h
      obtain ⟨-, hq⟩ := h
      subst hq
      exact hpos
    · obtain ⟨pat, hpat, hlnmem⟩ := findLine_found_mem _ _ _ _ _ _ _ hfind
      have hlineok : LineOk ln = true := by
        simp only [ModOk, List.all_eq_true] at hmod
        have := hmod pat hpat
        simp only [List.all_eq_true] at this
        exact this ln hlnmem
      simp only [LineOk, Bool.and_eq_true] at hlineok
      obtain ⟨⟨⟨hok0, hok1⟩, hok2⟩, hok3⟩ := hlineok
      simp only [hfind] at h
      split at h
      · simp only [Option.some.injEq, Prod.mk.injEq] at h
        obtain ⟨-, hq⟩ := h
        subst hq
        exact loadChannel_ticks_pos _ _ _ _ _ hok3
          (loadChannel_ticks_pos _ _ _ _ _ hok2
            (loadChannel_ticks_pos _ _ _ _ _ hok1
              (loadChannel_ticks_pos _ _ _ _ _ hok0 hpos)))
      · exact Option.noConfusion h
  · rcases hfind : findLine p.modfile (p.modfile.positions.length + 1)
        (p.position + 1) brk with _ | (⟨pos, ln⟩ | ⟨ln, pos, lnum⟩)
    · simp only [hfind] at h
      exact Option.noConfusion h
    · simp only [hfind, Option.some.injEq, Prod.mk.injEq] at h
      obtain ⟨-, hq⟩ := h
      subst hq
      exact hpos
    · obtain ⟨pat, hpat, hlnmem⟩ := findLine_found_mem _ _ _ _ _ _ _ hfind
      have hlineok : LineOk ln = true := by
        simp only [ModOk, List.all_eq_true] at hmod
        have := hmod pat hpat
        simp only [List.all_eq_true] at this
        exact this ln hlnmem
      simp only [LineOk, Bool.and_eq_true] at hlineok
      obtain ⟨⟨⟨hok0, hok1⟩, hok2⟩, hok3⟩ := hlineok
      simp only [hfind] at h
      split at h
      · simp only [Option.some.injEq, Prod.mk.injEq] at h
        obtain ⟨-, hq⟩ := h
        subst hq
        exact loadChannel_ticks_pos _ _ _ _ _ hok3
          (loadChannel_ticks_pos _ _ _ _ _ hok2
            (loadChannel_ticks_pos _ _ _ _ _ hok1
              (loadChannel_ticks_pos _ _ _ _ _ hok0 hpos)))
      · exact Option.noConfusion h

/-- One `next_sample` step preserves the module, the samples-per-tick
ratio and the positivity of ticks-per-line (for modules whose set-speed
values are all positive). -/
theorem next_sample_counters_pos :
    ∀ p o q, ModOk p.modfile = true → next_sample p = some (o, q) →
      1 ≤ p.ticks_per_line →
      q.modfile = p.modfile ∧ q.samples_per_tick = p.samples_per_tick ∧
        1 ≤ q.ticks_per_line := by
  intro p o q hmod h hpos
  unfold next_sample at h
  split at h
  · rcases hlb : lineBoundary p with _ | ⟨b, r⟩
    · rw [hlb] at h; exact Option.noConfusion h
    · rw [hlb] at h
      have hrt := lineBoundary_ticks_pos p b r hmod hpos hlb
      rcases lineBoundary_cases p b r hlb with hc | hc
      · obtain ⟨hb, -, hrm, -, -, -, hrs, -⟩ := hc
        subst hb
        simp only [Option.some.injEq, Prod.mk.injEq] at h
        obtain ⟨-, hq⟩ := h
        subst hq
        exact ⟨hrm, hrs, hrt⟩
      · obtain ⟨hb, -, hrm, hrs⟩ := hc
        subst hb
        have hm := mix_preserves_sched r o q h
        refine ⟨by rw [hm.1, hrm], by rw [hm.2.2.2.2.2.1, hrs], ?_⟩
        rw [hm.2.2.2.1]
        exact hrt
  · split at h
    · rcases htb : tickBoundary p with _ | r
      · rw [htb] at h; exact Option.noConfusion h
      · rw [htb] at h
        have ht := tickBoundary_preserves p r htb
        have hm := mix_preserves_sched r o q h
        refine ⟨by rw [hm.1, ht.1], by rw [hm.2.2.2.2.2.1, ht.2.2.2.1], ?_⟩
        rw [hm.2.2.2.1, ht.2.1]
        exact hpos
    · have hm := mix_preserves_sched _ o q h
      refine ⟨by rw [hm.1], by rw [hm.2.2.2.2.2.1], ?_⟩
      rw [hm.2.2.2.1]
      exact hpos

/-- C10: for every output sample rate of at least 50 and every module whose
set-speed values ≤ 31 are all ≥ 1, both counter resets performed by
`next_sample` — `samples_left := samples_per_tick − 1` and
`ticks_left := ticks_per_line − 1` — succeed on every reachable state:
the checked u32 decrements never underflow. -/
theorem counter_resets_never_underflow :
    ∀ m rate p, ModOk m = true → 50 ≤ rate → Reachable m rate p →
      (resetCounter p.samples_per_tick).isSome = true ∧
      (resetCounter p.ticks_per_line).isSome = true := by
  intro m rate p hmod hrate hreach
  obtain ⟨n, hrun⟩ := hreach
  have hP : p.modfile = m ∧ p.samples_per_tick = rate / 50 ∧
      1 ≤ p.ticks_per_line := by
    refine runState_preserves
      (fun r => r.modfile = m ∧ r.samples_per_tick = rate / 50 ∧
        1 ≤ r.ticks_per_line) ?_ n (Player.new m rate) p hrun
      ⟨rfl, rfl, by simp [Player.new]⟩
    intro p1 o q h hp1
    have hc := next_sample_counters_pos p1 o q (by rw [hp1.1]; exact hmod) h
      hp1.2.2
    exact ⟨by rw [hc.1, hp1.1], by rw [hc.2.1, hp1.2.1], hc.2.2⟩
  have hspt : 1 ≤ p.samples_per_tick := by
    rw [hP.2.1]
    calc 1 = 50 / 50 := by norm_num
    _ ≤ rate / 50 := Nat.div_le_div_right hrate
  constructor
  · unfold resetCounter
    rw [if_neg (by omega)]
    rfl
  · unfold resetCounter
    rw [if_neg (by omega)]
    rfl

/-- C10 witness: the theorem applied to the freshly constructed player of
the empty module at exactly 50 Hz. -/
theorem counter_resets_never_underflow_witness :
    (resetCounter (Player.new exM0 50).samples_per_tick).isSome = true ∧
    (resetCounter (Player.new exM0 50).ticks_per_line).isSome = true :=
  counter_resets_never_underflow exM0 50 (Player.new exM0 50) (by decide)
    (by decide) ⟨0, rfl⟩
